import Mathlib

set_option maxHeartbeats 1000000

/-!
Shallow embedding of the swagger-annotator repository
(internal/annotation, package `annotation`).

Strings are modelled as lists of characters (`Str`); the Go code works
on bytes and every string constant involved is ASCII, so one list
element corresponds to one byte.  Go's parsed syntax tree is modelled
by explicit records (`TypeSpec`, `CommentItem`); positions are the
1-based line numbers that `token.FileSet.Position` reports, exactly as
the Go code consumes them.  Go maps with `bool` values are modelled as
membership functions or association lists with overwrite-on-insert,
matching Go map assignment.
-/

abbrev Str := List Char

/-- Whitespace recognised by Go `strings.TrimSpace` (the ASCII part of
`unicode.IsSpace`: space, tab, newline, vertical tab, form feed,
carriage return). -/
def isSpaceChar (c : Char) : Bool :=
  c = ' ' || c = '\t' || c = '\n' || c = '\x0b' || c = '\x0c' || c = '\r'

/-- Whitespace class of Go `regexp`'s `\s`: tab, newline, form feed,
carriage return, space. -/
def isRegexSpace (c : Char) : Bool :=
  c = ' ' || c = '\t' || c = '\n' || c = '\x0c' || c = '\r'

/-- Go `strings.Contains s sub`: `sub` occurs as a contiguous substring. -/
def containsSub (s sub : Str) : Bool :=
  s.tails.any (fun t => sub.isPrefixOf t)

/-- Go `strings.TrimSpace`: drop leading and trailing whitespace. -/
def trimSpace (s : Str) : Str :=
  ((s.dropWhile isSpaceChar).reverse.dropWhile isSpaceChar).reverse

/-- Go `strings.TrimSuffix`: remove `suf` once if it is a suffix. -/
def trimSuffixStr (s suf : Str) : Str :=
  if suf.isSuffixOf s then s.take (s.length - suf.length) else s

/-- Go `strings.Split` with a one-character separator. -/
def splitChar (sep : Char) : Str → List Str
  | [] => [[]]
  | c :: rest =>
    match splitChar sep rest with
    | [] => [[]]
    | h :: t => if c = sep then [] :: h :: t else (c :: h) :: t

/-- Marker text searched for by `findIgnoredTypes`
(source line 291 etc.): the string between quotes in
`strings.Contains(comment.Text, "@swagger:ignore")`. -/
def ignoreMarker : Str := "@swagger:ignore".toList

/-- Atom of `nameRegex`: matcher for the Go regular expression
`//\s*@name\s+\S+` anchored at the start of `s`.  The regex is a
literal `//`, then optional whitespace, the literal `@name`, at least
one whitespace character and at least one non-whitespace character;
since each literal follows a whitespace class that can never consume
the literal's first character, greedy matching is the only possible
matching and is what this function implements. -/
def matchNameAt (s : Str) : Bool :=
  match s with
  | '/' :: '/' :: rest =>
    let r1 := rest.dropWhile isRegexSpace
    if ("@name".toList).isPrefixOf r1 then
      let r2 := r1.drop 5
      match r2 with
      | c :: _ => isRegexSpace c && !(r2.dropWhile isRegexSpace).isEmpty
      | [] => false
    else false
  | _ => false

/-- Go `nameRegex.FindStringIndex(s)` restricted to the start index
`loc[0]`: the position of the leftmost match of the marker pattern,
`none` when there is no match. -/
def findNameRegex (s : Str) : Option Nat :=
  (List.range s.length).find? (fun i => matchNameAt (s.drop i))

/-- One Go identifier-or-other expression, as far as the source
distinguishes (`*ast.Ident` type assertions on `indexExpr.X` and
`indexExpr.Index`). -/
inductive GoExpr
  | identE (name : Str)
  | otherE
deriving DecidableEq

/-- Shape of `ast.TypeSpec.Type` as far as `extractTypeInfo`
distinguishes it: `*ast.IndexExpr`, `*ast.Ident`, `*ast.StructType`,
or anything else. -/
inductive GoType
  | indexExpr (x : GoExpr) (index : GoExpr)
  | identT (name : Str)
  | structType
  | otherT
deriving DecidableEq

/-- Mirror of the Go struct `TypeInfo` (source lines 34-40). -/
structure TypeInfo where
  Name : Str := []
  IsGeneric : Bool := false
  IsAlias : Bool := false
  InnerType : Str := []
  GenericBase : Str := []
deriving DecidableEq

/-- One parsed `ast.TypeSpec` with the data the passes consume: its
name, its type expression, the 1-based line of `ts.Pos()` (the line of
the declaration's name), the 1-based line of `ts.End()`, and the texts
of its doc-comment block (empty list when `ts.Doc == nil`). -/
structure TypeSpec where
  name : Str
  type : GoType
  posLine : Nat
  endLine : Nat
  doc : List Str := []
deriving DecidableEq

/-- One comment of the file's comment inventory `f.Comments`, with the
1-based line of its position. -/
structure CommentItem where
  line : Nat
  text : Str
deriving DecidableEq

/-- Go `ast.Ident.IsExported` for the names occurring here: the first
character is an upper-case letter. -/
def isExported (s : Str) : Bool :=
  match s with
  | [] => false
  | c :: _ => c.isUpper

/-- Mirror of `basicTypes` (source lines 25-30). -/
def basicTypes (s : Str) : Bool :=
  (["string", "int", "int32", "int64", "uint", "uint32", "uint64",
    "float32", "float64", "bool", "byte", "rune"].map String.toList).contains s

/-- Mirror of `handleIndexExpr` (source lines 185-198). -/
def handleIndexExpr (info : TypeInfo) (x idx : GoExpr) (tsName : Str) : TypeInfo :=
  match x with
  | GoExpr.identE xname =>
    let info1 :=
      if tsName ≠ xname then { info with IsAlias := true }
      else { info with IsGeneric := true }
    let info2 := { info1 with GenericBase := xname }
    match idx with
    | GoExpr.identE sub => { info2 with InnerType := sub }
    | GoExpr.otherE => info2
  | GoExpr.otherE => info

/-- Mirror of `handleIdentType` (source lines 200-206). -/
def handleIdentType (info : TypeInfo) (n : Str) : TypeInfo :=
  if basicTypes n then {} else { info with IsAlias := true }

/-- Mirror of `extractTypeInfo` (source lines 167-183). -/
def extractTypeInfo (ts : TypeSpec) : TypeInfo :=
  match ts.type with
  | GoType.indexExpr x idx => handleIndexExpr { Name := ts.name } x idx ts.name
  | GoType.identT n => handleIdentType { Name := ts.name } n
  | GoType.structType => { Name := ts.name }
  | GoType.otherT => {}

/-- One exported declaration's ignore test, the body of the
`ast.Inspect` callback of `findIgnoredTypes` (source lines 280-324):
the doc block contains the marker, or the raw source line holding the
declaration's position contains it, or some comment of the file lies
within one line of the declaration's position and contains it.  The
line-number comparisons are the Go `int` comparisons, hence taken in
`Int`. -/
def isIgnoredSpec (lines : List Str) (comments : List CommentItem) (ts : TypeSpec) : Bool :=
  isExported ts.name &&
    (ts.doc.any (fun c => containsSub c ignoreMarker) ||
     (decide (0 < ts.posLine) && decide (ts.posLine ≤ lines.length) &&
        containsSub (lines.getD (ts.posLine - 1) []) ignoreMarker) ||
     comments.any (fun c =>
       containsSub c.text ignoreMarker &&
         decide ((ts.posLine : Int) - 1 ≤ (c.line : Int)) &&
         decide ((c.line : Int) ≤ (ts.posLine : Int) + 1)))

/-- Mirror of `findIgnoredTypes` (source lines 280-324) as the
membership function of the `ignoredTypes` map it fills: a name is
ignored when some spec carrying that name passes the ignore test. -/
def findIgnoredTypes (lines : List Str) (comments : List CommentItem)
    (specs : List TypeSpec) : Str → Bool :=
  fun n => specs.any (fun ts => decide (ts.name = n) && isIgnoredSpec lines comments ts)

/-- Constant `"SearchResponse"` compared against `info.GenericBase`
(source lines 215 and 333). -/
def searchResponseStr : Str := "SearchResponse".toList

/-- Mirror of `findSearchResponseInnerTypes` (source lines 326-338) as
the membership function of the `searchResponseInnerTypes` map: the
names added are the non-empty inner types of non-ignored exported
specs whose generic base is `SearchResponse`. -/
def findSearchResponseInnerTypes (specs : List TypeSpec) (ignored : Str → Bool) : Str → Bool :=
  fun n =>
    specs.any (fun ts =>
      isExported ts.name && !ignored ts.name &&
        ((extractTypeInfo ts).IsGeneric || (extractTypeInfo ts).IsAlias) &&
        decide ((extractTypeInfo ts).GenericBase = searchResponseStr) &&
        !(extractTypeInfo ts).InnerType.isEmpty &&
        decide ((extractTypeInfo ts).InnerType = n))

/-- Constant `"response"`, the variant string compared by
`generateAnnotationNameWithContext`. -/
def respStr : Str := "response".toList

/-- Suffix `"Response"` stripped first by the name generator. -/
def responseSuffix : Str := "Response".toList

/-- Suffix `"Request"` stripped second by the name generator. -/
def requestSuffix : Str := "Request".toList

/-- The two unconditional strips of the name generator (source lines
218 and 226): `strings.TrimSuffix(strings.TrimSuffix(s, "Response"),
"Request")`. -/
def stripRR (s : Str) : Str :=
  trimSuffixStr (trimSuffixStr s responseSuffix) requestSuffix

/-- Suffix `"Res"`. -/
def resSuffix : Str := "Res".toList

/-- Suffix `"Req"`. -/
def reqSuffix2 : Str := "Req".toList

/-- Suffix `"ItemRes"`. -/
def itemResStr : Str := "ItemRes".toList

/-- Suffix `"ItemReq"`. -/
def itemReqStr : Str := "ItemReq".toList

/-- Mirror of `generateAnnotationNameWithContext` (source lines
208-243): the pure name generator mapping a type's shape, the file's
variant and the inner-type set to the pair (main name, item name). -/
def generateAnnotationNameWithContext (info : TypeInfo) (variant : Str)
    (srit : Str → Bool) : Str × Str :=
  if info.Name.isEmpty then ([], [])
  else if (info.IsGeneric || info.IsAlias) && decide (info.GenericBase = searchResponseStr) then
    let mainName := info.Name ++ resSuffix
    let itemName :=
      if !info.InnerType.isEmpty then
        stripRR info.InnerType ++ (if variant = respStr then itemResStr else itemReqStr)
      else []
    (mainName, itemName)
  else
    let base := stripRR info.Name
    if srit info.Name then
      (base ++ (if variant = respStr then itemResStr else itemReqStr), [])
    else
      (base ++ (if variant = respStr then resSuffix else reqSuffix2), [])

/-- State threaded through `addAnnotations`: the `annotations` map
from 0-based line index to annotation name (association list with Go
map overwrite-on-assign semantics) and the `annotatedTypes` name set. -/
structure AnnState where
  annotations : List (Nat × Str) := []
  annotatedTypes : List Str := []
deriving DecidableEq

/-- Go map assignment `m[k] = v`: overwrite the binding if the key is
present, otherwise add it. -/
def insertAnn (m : List (Nat × Str)) (k : Nat) (v : Str) : List (Nat × Str) :=
  if m.any (fun p => p.1 == k) then
    m.map (fun p => if p.1 == k then (k, v) else p)
  else m ++ [(k, v)]

/-- Go map lookup `m[k]`, as an `Option`. -/
def lookupAnn (m : List (Nat × Str)) (k : Nat) : Option Str :=
  (m.find? (fun p => p.1 == k)).map (fun p => p.2)

/-- Body of the outer `ast.Inspect` callback of `addAnnotations`
(source lines 341-374) for one `TypeSpec`.  The inner `ast.Inspect`
(lines 362-370) visits every `TypeSpec` of the file in source order;
returning `false` there only prunes the matched node's children, so
every non-ignored spec named `info.InnerType` receives the item
annotation at its own end line, which the fold over the filtered spec
list reproduces.  `annotations` keys are the 0-based
`fset.Position(End()).Line - 1` values. -/
def addAnnotationsStep (specs : List TypeSpec) (variant : Str)
    (ignored srit : Str → Bool) (st : AnnState) (ts : TypeSpec) : AnnState :=
  if !isExported ts.name || ignored ts.name then st
  else
    let info := extractTypeInfo ts
    if info.Name.isEmpty then st
    else
      let names := generateAnnotationNameWithContext info variant srit
      let mainName := names.1
      let itemName := names.2
      let st1 :=
        if !mainName.isEmpty && !(st.annotatedTypes.any (fun x => x == mainName)) then
          AnnState.mk (insertAnn st.annotations (ts.endLine - 1) mainName)
            (mainName :: st.annotatedTypes)
        else st
      if !itemName.isEmpty && !(st1.annotatedTypes.any (fun x => x == itemName)) then
        if !info.InnerType.isEmpty then
          (specs.filter (fun its => decide (its.name = info.InnerType) && !ignored its.name)).foldl
            (fun s its =>
              AnnState.mk (insertAnn s.annotations (its.endLine - 1) itemName)
                (itemName :: s.annotatedTypes)) st1
        else st1
      else st1

/-- Mirror of `addAnnotations` (source lines 340-375): fold the step
over the file's specs in source order, starting from empty maps. -/
def addAnnotations (specs : List TypeSpec) (variant : Str)
    (ignored srit : Str → Bool) : AnnState :=
  specs.foldl (addAnnotationsStep specs variant ignored srit) {}

/-- Directive text `fmt.Sprintf("@name %s%s", prefix, name)` built by
`applyAnnotations` (source line 382). -/
def expectedDirective (pre nm : Str) : Str :=
  ("@name ".toList) ++ pre ++ nm

/-- Comment text appended or substituted by `applyAnnotations`
(source lines 391 and 396): `fmt.Sprintf(" // %s", expected)`. -/
def trailingComment (pre nm : Str) : Str :=
  (" // ".toList) ++ expectedDirective pre nm

/-- The per-line body of `applyAnnotations` (source lines 381-402) for
a planned line: skip when the trimmed line already contains the
expected directive; otherwise, when `nameRegex` matches the trimmed
line at index `loc[0]`, keep `lines[i][:loc[0]]` — note that the Go
code slices the untrimmed byte slice with an index computed on the
trimmed string — and append the fresh trailing comment; otherwise
append the fresh trailing comment to the whole line.  Returns the new
line and whether it was changed. -/
def patchLine (pre nm line : Str) : Str × Bool :=
  let expected := expectedDirective pre nm
  let lineStr := trimSpace line
  if containsSub lineStr expected then (line, false)
  else
    match findNameRegex lineStr with
    | some loc0 => (line.take loc0 ++ trailingComment pre nm, true)
    | none => (line ++ trailingComment pre nm, true)

/-- Recursion of `applyAnnotations` over the lines, carrying the
0-based index `i` of the first line of `ls`. -/
def applyAnnotationsAux (ann : List (Nat × Str)) (pre : Str) : Nat → List Str → List Str × Nat
  | _, [] => ([], 0)
  | i, l :: rest =>
    let tail := applyAnnotationsAux ann pre (i + 1) rest
    match lookupAnn ann i with
    | some nm =>
      let p := patchLine pre nm l
      (p.1 :: tail.1, tail.2 + (if p.2 then 1 else 0))
    | none => (l :: tail.1, tail.2)

/-- Mirror of `applyAnnotations` (source lines 377-406): patch every
line whose index is in the annotation plan and count the changes. -/
def applyAnnotations (lines : List Str) (ann : List (Nat × Str)) (pre : Str) : List Str × Nat :=
  applyAnnotationsAux ann pre 0 lines

/-- Mirror of the pure part of `processFile` (source lines 245-278):
run the three analysis passes on the parsed data, then apply the
resulting plan to the lines.  Reading, parsing and writing are the
file-system boundary; the parsed syntax (`specs`, `comments`) and the
raw `lines` are taken as inputs, and the patched lines plus the count
`annotationsApplied` are returned. -/
def processFile (lines : List Str) (comments : List CommentItem)
    (specs : List TypeSpec) (variant pre : Str) : List Str × Nat :=
  let ignored := findIgnoredTypes lines comments specs
  let srit := findSearchResponseInnerTypes specs ignored
  let ann := (addAnnotations specs variant ignored srit).annotations
  applyAnnotations lines ann pre

/-- Rewrite condition of `processFile` (source lines 271-275): the
file is written back exactly when `applyAnnotations` returned a
positive count. -/
def writesFile (lines : List Str) (comments : List CommentItem)
    (specs : List TypeSpec) (variant pre : Str) : Bool :=
  decide (0 < (processFile lines comments specs variant pre).2)

/-- Condition on a planned name under the naming prefix: the
concatenation is non-empty and ends in a non-whitespace character.
Every name the tool plans is an identifier plus an alphabetic suffix,
so this always holds in practice. -/
def endsNonSpace (s : Str) : Bool :=
  match s.getLast? with
  | some c => !isSpaceChar c
  | none => false

/-- The annotation plan a file's pipeline computes before patching:
the `annotations` map built by the three passes of `processFile`
(source lines 263-266). -/
def planOf (lines : List Str) (comments : List CommentItem)
    (specs : List TypeSpec) (variant : Str) : List (Nat × Str) :=
  (addAnnotations specs variant (findIgnoredTypes lines comments specs)
    (findSearchResponseInnerTypes specs (findIgnoredTypes lines comments specs))).annotations

/-- File-name suffix test of the walk callback (source line 112):
`strings.HasSuffix(info.Name(), ".go")`. -/
def goSuffix : Str := ".go".toList

/-- One file-system object seen by `filepath.Walk` inside one source
directory: its path relative to the base directory as segments, the
`IsDir` flag, and the outcome of `processFile` on it (`none` =
success; `some msg` = the read, parse or write failure it returned).
`processFile` itself sits behind this oracle because its internals are
modelled separately. -/
structure WalkEntry where
  relParts : List Str
  isDir : Bool := false
  procErr : Option Str := none
deriving DecidableEq

/-- Base name of a walked path, Go `info.Name()`. -/
def entryName (e : WalkEntry) : Str := e.relParts.getLastD []

/-- One configured source directory together with what `filepath.Walk`
saw there: the visited entries in walk order and the terminal error of
the walk itself, if any (a walk error aborts that directory's
remaining traversal, so `entries` are the entries actually visited). -/
structure DirWalk where
  dirName : Str
  entries : List WalkEntry
  walkErr : Option Str := none
deriving DecidableEq

/-- Errors accumulated by `ProcessingResult.AddError`: a per-file
error wrapped as `processing <path>: <err>` (source line 118) or a
directory-walk error wrapped as `walking directory <dir>: <err>`
(source line 124), each tagged with its origin. -/
inductive RunError
  | fileError (relParts : List Str) (msg : Str)
  | walkError (dirName : Str) (msg : Str)
deriving DecidableEq

/-- Mirror of the Go struct `ProcessingResult` (source lines 43-48).
The two annotation counters are incremented inside `applyAnnotations`,
which is modelled separately; the run-level theorems only concern
`FilesProcessed` and `Errors`. -/
structure ProcessingResult where
  FilesProcessed : Nat := 0
  AnnotationsAdded : Nat := 0
  AnnotationsReplaced : Nat := 0
  Errors : List RunError := []
deriving DecidableEq

/-- Body of the walk callback (source lines 107-121) plus
`processSourceFile` (source lines 131-147) for one entry: directories
and non-`.go` files are skipped; files whose relative path has fewer
than two segments are skipped without error; otherwise the file is
counted and a processing failure is recorded as an error while the
walk continues. -/
def processEntry (r : ProcessingResult) (e : WalkEntry) : ProcessingResult :=
  if e.isDir || !goSuffix.isSuffixOf (entryName e) then r
  else if e.relParts.length < 2 then r
  else
    let r1 := { r with FilesProcessed := r.FilesProcessed + 1 }
    match e.procErr with
    | some msg => { r1 with Errors := r1.Errors ++ [RunError.fileError e.relParts msg] }
    | none => r1

/-- One directory of `processSourceDirectories` (source lines
105-126): fold the callback over the visited entries, then record the
walk's own error if it returned one. -/
def processDir (r : ProcessingResult) (d : DirWalk) : ProcessingResult :=
  let r1 := d.entries.foldl processEntry r
  match d.walkErr with
  | some msg => { r1 with Errors := r1.Errors ++ [RunError.walkError d.dirName msg] }
  | none => r1

/-- Mirror of `processSourceDirectories` (source lines 102-129). -/
def processSourceDirectories (dirs : List DirWalk) : ProcessingResult :=
  dirs.foldl processDir {}

/-- Go `ProcessingResult.HasErrors` (source lines 72-74). -/
def hasErrors (r : ProcessingResult) : Bool := !r.Errors.isEmpty

/-- Verdict of `Run` (source lines 83-100): `Run` returns a non-nil
error exactly when the aggregated result has errors. -/
def runFails (dirs : List DirWalk) : Bool := hasErrors (processSourceDirectories dirs)

/-- Eligibility of a walked entry for per-file processing: not a
directory, name ends in `.go`, and the relative path has at least two
segments. -/
def eligibleEntry (e : WalkEntry) : Bool :=
  !e.isDir && goSuffix.isSuffixOf (entryName e) && decide (2 ≤ e.relParts.length)

/-- The errors one entry should contribute: its processing failure,
tagged with its path, when it is eligible. -/
def entryErrors (e : WalkEntry) : List RunError :=
  if eligibleEntry e then
    match e.procErr with
    | some msg => [RunError.fileError e.relParts msg]
    | none => []
  else []

/-- The errors one directory should contribute: all of its entries'
errors in walk order, then its own walk error if any. -/
def dirErrors (d : DirWalk) : List RunError :=
  (d.entries.map entryErrors).flatten ++
    (match d.walkErr with
     | some msg => [RunError.walkError d.dirName msg]
     | none => [])

/-- Path separator of the repository's file layout. -/
def sepChar : Char := '/'

/-- The dot joined into the annotation prefix. -/
def dotStr : Str := ".".toList

/-- Version extraction of `processSourceFile` (source lines 131-143):
split the path relative to the base directory, skip the file when it
has fewer than two segments, otherwise take the second segment as the
version identifier. -/
def versionOfRel (rel : Str) : Option Str :=
  let parts := splitChar sepChar rel
  if parts.length < 2 then none else some (parts.getD 1 [])

/-- Prefix construction of `processSourceFile` (source line 143):
`fmt.Sprintf("%s.%s.", projectPrefix, version)`. -/
def prefixOfRel (proj rel : Str) : Option Str :=
  (versionOfRel rel).map (fun v => proj ++ dotStr ++ v ++ dotStr)

/-- Concrete naming prefix `p.v1.` used by the concrete instances. -/
def pv1 : Str := "p.v1.".toList

/-- Concrete file, first run: declarations `A` (lines 3-5) and `B`
(line 5), where `B` sits on `A`'s closing line behind a stale
directive followed by an ignore marker. -/
def cexLines1 : List Str :=
  [("package response".toList), ([]),
   ("type A struct \x7b".toList),
   ("\tX int".toList),
   ("\x7d; type B struct\x7b\x7d // @name stale @swagger:ignore".toList)]

/-- Spec record of `A`: a struct type declared on line 3, ending on
line 5. -/
def cexSpecA : TypeSpec :=
  { name := "A".toList, type := GoType.structType, posLine := 3, endLine := 5 }

/-- Spec record of `B`: a struct type declared and ending on line 5. -/
def cexSpecB : TypeSpec :=
  { name := "B".toList, type := GoType.structType, posLine := 5, endLine := 5 }

/-- The two declarations of the concrete file, in source order. -/
def cexSpecs : List TypeSpec := [cexSpecA, cexSpecB]

/-- Comment inventory of the first parse: the trailing comment on
line 5. -/
def cexComments1 : List CommentItem :=
  [{ line := 5, text := "// @name stale @swagger:ignore".toList }]

/-- Comment inventory of the re-parse of the patched file: replacing
the stale directive rewrote line 5's trailing comment to the fresh
directive, so the ignore marker that used to follow it is gone.  The
declaration positions are unchanged, the patch only edited trailing
comment text. -/
def cexComments2 : List CommentItem :=
  [{ line := 5, text := "// @name p.v1.ARes".toList }]

/-- Concrete file for the ignore claims: `Widget` carries an ignore
marker in its doc comment, and the non-ignored wrapper `FooList` is
declared as `SearchResponse[Widget]`. -/
def wLines : List Str :=
  [("package response".toList),
   ("// @swagger:ignore".toList),
   ("type Widget struct\x7b\x7d".toList),
   ("type FooList SearchResponse[Widget]".toList)]

/-- Spec record of the ignored `Widget` declaration. -/
def wWidget : TypeSpec :=
  { name := "Widget".toList, type := GoType.structType, posLine := 3, endLine := 3,
    doc := [("// @swagger:ignore".toList)] }

/-- Spec record of the wrapper `FooList`, an alias instantiation of
`SearchResponse` with inner type `Widget`. -/
def wWrap : TypeSpec :=
  { name := "FooList".toList,
    type := GoType.indexExpr (GoExpr.identE ("SearchResponse".toList))
      (GoExpr.identE ("Widget".toList)),
    posLine := 4, endLine := 4 }

/-- The two declarations of the ignore-example file, in source order. -/
def wSpecs : List TypeSpec := [wWidget, wWrap]

/-- Comment inventory of the ignore-example file. -/
def wComments : List CommentItem :=
  [{ line := 2, text := "// @swagger:ignore".toList }]

/-- Concrete file whose single planned line already carries its
correct directive. -/
def okLines : List Str :=
  [("package response".toList),
   ("type Ok struct\x7b\x7d // @name p.v1.OkRes".toList)]

/-- Spec record of `Ok`, declared and ending on line 2. -/
def okSpec : TypeSpec :=
  { name := "Ok".toList, type := GoType.structType, posLine := 2, endLine := 2 }

/-- Declarations of the already-correct file. -/
def okSpecs : List TypeSpec := [okSpec]

/-- Comment inventory of the already-correct file. -/
def okComments : List CommentItem :=
  [{ line := 2, text := "// @name p.v1.OkRes".toList }]

/-- The item name `generateAnnotationNameWithContext` computes for a
SearchResponse wrapper's inner type (source lines 217-223): strip the
two suffixes from the inner type's name and append `ItemRes` or
`ItemReq` by variant. -/
def itemNameOf (ts : TypeSpec) (variant : Str) : Str :=
  stripRR (extractTypeInfo ts).InnerType ++
    (if variant = respStr then itemResStr else itemReqStr)

/-! Helper lemmas about the string primitives. -/

lemma containsSub_infix_iff {s sub : Str} : containsSub s sub = true ↔ sub <:+: s := by
  unfold containsSub
  rw [List.any_eq_true]
  constructor
  · rintro ⟨t, ht, hp⟩
    exact List.infix_iff_prefix_suffix.mpr
      ⟨t, List.isPrefixOf_iff_prefix.mp hp, (List.mem_tails _ _).mp ht⟩
  · intro h
    rcases List.infix_iff_prefix_suffix.mp h with ⟨t, hpre, hsuf⟩
    exact ⟨t, (List.mem_tails _ _).mpr hsuf, List.isPrefixOf_iff_prefix.mpr hpre⟩

lemma containsSub_of_suffix {s sub : Str} (h : sub <:+ s) : containsSub s sub = true :=
  containsSub_infix_iff.mpr (List.infix_iff_prefix_suffix.mpr ⟨sub, List.prefix_refl _, h⟩)

lemma dropWhile_eq_self_of_head {p : Char → Bool} {e : Str}
    (h : ∀ c, e.head? = some c → p c = false) : e.dropWhile p = e := by
  cases e with
  | nil => rfl
  | cons c e' =>
    rw [List.dropWhile_cons, h c rfl]
    simp

lemma trimSpace_append_right {x e : Str} (he : e ≠ [])
    (hh : ∀ c, e.head? = some c → isSpaceChar c = false)
    (hl : ∀ c, e.getLast? = some c → isSpaceChar c = false) :
    ∃ x', trimSpace (x ++ e) = x' ++ e := by
  have h1 : e.dropWhile isSpaceChar = e := dropWhile_eq_self_of_head hh
  have h2 : e.reverse.dropWhile isSpaceChar = e.reverse := by
    apply dropWhile_eq_self_of_head
    intro c hc
    apply hl
    rw [← List.head?_reverse]
    exact hc
  have h3 : e.reverse.isEmpty = false := by
    cases hrev : e.reverse with
    | nil => exact absurd (List.reverse_eq_nil_iff.mp hrev) he
    | cons a l => rfl
  by_cases hx : (x.dropWhile isSpaceChar).isEmpty = true
  · refine ⟨[], ?_⟩
    unfold trimSpace
    rw [List.dropWhile_append, if_pos hx, h1, h2, List.reverse_reverse, List.nil_append]
  · refine ⟨x.dropWhile isSpaceChar, ?_⟩
    unfold trimSpace
    rw [List.dropWhile_append, if_neg hx, List.reverse_append, List.dropWhile_append, h2, h3]
    simp

lemma containsSub_trimSpace_append {x e : Str} (he : e ≠ [])
    (hh : ∀ c, e.head? = some c → isSpaceChar c = false)
    (hl : ∀ c, e.getLast? = some c → isSpaceChar c = false) :
    containsSub (trimSpace (x ++ e)) e = true := by
  obtain ⟨x', hx⟩ := trimSpace_append_right he hh hl
  rw [hx]
  exact containsSub_of_suffix (List.suffix_append _ _)

lemma expectedDirective_ends {pre nm : Str} (h : endsNonSpace (pre ++ nm) = true) :
    expectedDirective pre nm ≠ [] ∧
    (∀ c, (expectedDirective pre nm).head? = some c → isSpaceChar c = false) ∧
    (∀ c, (expectedDirective pre nm).getLast? = some c → isSpaceChar c = false) := by
  unfold endsNonSpace at h
  rcases hg : (pre ++ nm).getLast? with _ | d
  · rw [hg] at h; cases h
  · rw [hg] at h
    have hd : isSpaceChar d = false := by simpa using h
    have hne : pre ++ nm ≠ [] := by
      intro hc
      rw [hc] at hg
      cases hg
    have hassoc : expectedDirective pre nm = ("@name ".toList) ++ (pre ++ nm) := by
      unfold expectedDirective
      rw [List.append_assoc]
    refine ⟨?_, ?_, ?_⟩
    · rw [hassoc]
      intro hc
      simp at hc
    · intro c hc
      rw [hassoc] at hc
      have hhd : (("@name ".toList) ++ (pre ++ nm)).head? = some '@' := rfl
      rw [hhd] at hc
      injection hc with hc'
      rw [← hc']
      decide
    · intro c hc
      rw [hassoc, List.getLast?_append_of_ne_nil _ hne, hg] at hc
      injection hc with hc'
      rw [← hc']
      exact hd

lemma patchLine_contains {pre nm line : Str}
    (h : containsSub (trimSpace line) (expectedDirective pre nm) = true) :
    patchLine pre nm line = (line, false) := by
  unfold patchLine
  simp [h]

lemma patchLine_result_contains {pre nm line : Str} (h : endsNonSpace (pre ++ nm) = true) :
    containsSub (trimSpace (patchLine pre nm line).1) (expectedDirective pre nm) = true := by
  obtain ⟨hne, hh, hl⟩ := expectedDirective_ends h
  have key : ∀ z : Str,
      containsSub (trimSpace (z ++ trailingComment pre nm)) (expectedDirective pre nm) = true := by
    intro z
    have hz : z ++ trailingComment pre nm
        = (z ++ (" // ".toList)) ++ expectedDirective pre nm := by
      unfold trailingComment
      rw [List.append_assoc]
    rw [hz]
    exact containsSub_trimSpace_append hne hh hl
  by_cases hc : containsSub (trimSpace line) (expectedDirective pre nm) = true
  · rw [patchLine_contains hc]
    exact hc
  · unfold patchLine
    rcases hf : findNameRegex (trimSpace line) with _ | loc0
    · simp only [hf]
      rw [if_neg hc]
      exact key line
    · simp only [hf]
      rw [if_neg hc]
      exact key (line.take loc0)

lemma patchLine_fix {pre nm line : Str} (h : endsNonSpace (pre ++ nm) = true) :
    patchLine pre nm (patchLine pre nm line).1 = ((patchLine pre nm line).1, false) :=
  patchLine_contains (patchLine_result_contains h)

lemma lookupAnn_mem {ann : List (Nat × Str)} {i : Nat} {nm : Str}
    (h : lookupAnn ann i = some nm) : (i, nm) ∈ ann := by
  unfold lookupAnn at h
  rcases hf : ann.find? (fun p => p.1 == i) with _ | p
  · rw [hf] at h
    cases h
  · rw [hf] at h
    have hp := List.find?_some hf
    have hm : p ∈ ann := List.mem_of_find?_eq_some hf
    have h1 : p.1 = i := by simpa using hp
    have h2 : p.2 = nm := by simpa using h
    have hpe : p = (i, nm) := by
      cases p with
      | mk a b =>
        simp only at h1 h2
        rw [h1, h2]
    rwa [hpe] at hm

lemma applyAnnotationsAux_fix {ann : List (Nat × Str)} {pre : Str}
    (h : ∀ p ∈ ann, endsNonSpace (pre ++ p.2) = true) :
    ∀ (i : Nat) (ls : List Str),
      applyAnnotationsAux ann pre i (applyAnnotationsAux ann pre i ls).1
        = ((applyAnnotationsAux ann pre i ls).1, 0) := by
  intro i ls
  induction ls generalizing i with
  | nil => rfl
  | cons l rest ih =>
    rcases hla : lookupAnn ann i with _ | nm
    · simp only [applyAnnotationsAux, hla]
      rw [ih (i + 1)]
    · have hfix : patchLine pre nm (patchLine pre nm l).1 = ((patchLine pre nm l).1, false) :=
        patchLine_fix (h (i, nm) (lookupAnn_mem hla))
      simp only [applyAnnotationsAux, hla, hfix]
      rw [ih (i + 1)]
      simp

lemma applyAnnotationsAux_get?_of_none {ann : List (Nat × Str)} {pre : Str} :
    ∀ (i : Nat) (ls : List Str) (j : Nat), lookupAnn ann (i + j) = none →
      (applyAnnotationsAux ann pre i ls).1.get? j = ls.get? j := by
  intro i ls
  induction ls generalizing i with
  | nil => intro j _; rfl
  | cons l rest ih =>
    intro j hj
    rcases hla : lookupAnn ann i with _ | nm
    · cases j with
      | zero => simp [applyAnnotationsAux, hla]
      | succ j' =>
        have hj' : lookupAnn ann ((i + 1) + j') = none := by
          rw [(show (i + 1) + j' = i + (j' + 1) by omega)]
          exact hj
        simp only [applyAnnotationsAux, hla]
        rw [List.get?_cons_succ, List.get?_cons_succ]
        exact ih (i + 1) j' hj'
    · cases j with
      | zero =>
        rw [Nat.add_zero] at hj
        rw [hla] at hj
        cases hj
      | succ j' =>
        have hj' : lookupAnn ann ((i + 1) + j') = none := by
          rw [(show (i + 1) + j' = i + (j' + 1) by omega)]
          exact hj
        simp only [applyAnnotationsAux, hla]
        rw [List.get?_cons_succ, List.get?_cons_succ]
        exact ih (i + 1) j' hj'

lemma applyAnnotationsAux_noop {ann : List (Nat × Str)} {pre : Str} :
    ∀ (i : Nat) (ls : List Str),
      (∀ j nm, j < ls.length → lookupAnn ann (i + j) = some nm →
        containsSub (trimSpace (ls.getD j [])) (expectedDirective pre nm) = true) →
      applyAnnotationsAux ann pre i ls = (ls, 0) := by
  intro i ls
  induction ls generalizing i with
  | nil => intro _; rfl
  | cons l rest ih =>
    intro hcond
    have hrest : applyAnnotationsAux ann pre (i + 1) rest = (rest, 0) := by
      apply ih
      intro j nm hj hlo
      have hc := hcond (j + 1) nm (by simpa using Nat.succ_lt_succ hj)
        (by rw [(show i + (j + 1) = (i + 1) + j by omega)]; exact hlo)
      simpa using hc
    rcases hla : lookupAnn ann i with _ | nm
    · simp [applyAnnotationsAux, hla, hrest]
    · have hc0 := hcond 0 nm (by simp) (by rw [Nat.add_zero]; exact hla)
      have hpl : patchLine pre nm l = (l, false) := patchLine_contains (by simpa using hc0)
      simp [applyAnnotationsAux, hla, hrest, hpl]

/-- Claim C1 (amended): re-running `applyAnnotations` on its own
output with the same annotation plan changes nothing — every planned
line already contains its expected directive after the first pass, so
the second pass reports zero changed lines and, by the rewrite
condition of `processFile`, no file rewrite.  This holds for every
plan whose planned names make `prefix ++ name` non-empty with a
non-whitespace last character, which is true of all generated names.
Full-pipeline idempotence as originally claimed fails because a
replacement can delete an ignore marker sitting after a stale
directive and so change the plan of the second run (see the
counterexample). -/
theorem applyAnnotations_second_pass_fixed (lines : List Str) (ann : List (Nat × Str))
    (pre : Str) (h : ∀ p ∈ ann, endsNonSpace (pre ++ p.2) = true) :
    applyAnnotations (applyAnnotations lines ann pre).1 ann pre
      = ((applyAnnotations lines ann pre).1, 0) :=
  applyAnnotationsAux_fix h 0 lines

/-- Witness for C1: a concrete one-line file with one planned name;
the second application of `applyAnnotations` returns the first pass's
lines unchanged with count zero. -/
theorem applyAnnotations_second_pass_fixed_witness :
    (∀ p ∈ ([(0, "FooRes".toList)] : List (Nat × Str)), endsNonSpace (pv1 ++ p.2) = true) ∧
    applyAnnotations
        (applyAnnotations [("type Foo struct\x7b\x7d".toList)] [(0, "FooRes".toList)] pv1).1
        [(0, "FooRes".toList)] pv1
      = ((applyAnnotations [("type Foo struct\x7b\x7d".toList)] [(0, "FooRes".toList)] pv1).1, 0) :=
  ⟨by decide, applyAnnotations_second_pass_fixed _ _ _ (by decide)⟩

/-- Counterexample to C1 as stated: on `cexLines1`, the first pipeline
run replaces the stale directive on line 5 and thereby deletes the
`@swagger:ignore` marker that made `B` ignored; the second run —
with the comment inventory of the re-parsed patched file — therefore
plans and applies an annotation for `B`, so it changes one line
again instead of zero and its output differs from its input. -/
theorem pipeline_twice_differs_cex :
    (processFile cexLines1 cexComments1 cexSpecs respStr pv1).2 = 1 ∧
    (processFile (processFile cexLines1 cexComments1 cexSpecs respStr pv1).1
        cexComments2 cexSpecs respStr pv1).2 = 1 ∧
    (processFile (processFile cexLines1 cexComments1 cexSpecs respStr pv1).1
        cexComments2 cexSpecs respStr pv1).1
      ≠ (processFile cexLines1 cexComments1 cexSpecs respStr pv1).1 := by
  refine ⟨by decide, by decide, by decide⟩

/-- Claim C5: frame property of the patcher — every line whose index
is absent from the annotation plan is returned byte-for-byte
unchanged; and when every planned line already contains its expected
directive, `applyAnnotations` returns the lines unchanged with count
zero, so the rewrite condition of `processFile` is false and the file
is never rewritten. -/
theorem applyAnnotations_frame_and_noop (lines : List Str) (comments : List CommentItem)
    (specs : List TypeSpec) (variant pre : Str) :
    (∀ i, lookupAnn (planOf lines comments specs variant) i = none →
      (processFile lines comments specs variant pre).1.get? i = lines.get? i) ∧
    ((∀ p ∈ planOf lines comments specs variant, p.1 < lines.length →
        containsSub (trimSpace (lines.getD p.1 [])) (expectedDirective pre p.2) = true) →
      processFile lines comments specs variant pre = (lines, 0) ∧
        writesFile lines comments specs variant pre = false) := by
  constructor
  · intro i hi
    exact applyAnnotationsAux_get?_of_none 0 lines i (by rw [Nat.zero_add]; exact hi)
  · intro hcond
    have hmain : applyAnnotationsAux (planOf lines comments specs variant) pre 0 lines
        = (lines, 0) := by
      apply applyAnnotationsAux_noop
      intro j nm hj hlo
      rw [Nat.zero_add] at hlo
      exact hcond (j, nm) (lookupAnn_mem hlo) hj
    have hpf : processFile lines comments specs variant pre = (lines, 0) := hmain
    refine ⟨hpf, ?_⟩
    unfold writesFile
    rw [hpf]
    simp

/-- Witness for C5: on the already-correct concrete file, the
unplanned line 1 is preserved, the patcher changes nothing, and the
file is not rewritten. -/
theorem applyAnnotations_frame_and_noop_witness :
    (processFile okLines okComments okSpecs respStr pv1).1.get? 0 = okLines.get? 0 ∧
    processFile okLines okComments okSpecs respStr pv1 = (okLines, 0) ∧
    writesFile okLines okComments okSpecs respStr pv1 = false :=
  ⟨(applyAnnotations_frame_and_noop okLines okComments okSpecs respStr pv1).1 0 (by decide),
   ((applyAnnotations_frame_and_noop okLines okComments okSpecs respStr pv1).2 (by decide)).1,
   ((applyAnnotations_frame_and_noop okLines okComments okSpecs respStr pv1).2 (by decide)).2⟩

/-- Claim C9: the already-correct test of the patcher is substring
containment on the trimmed line, so any line whose existing directive
extends the expected directive text — here by the extension `ext` — is
treated as already correct: the line is left unchanged and not counted
as a change. -/
theorem directive_extension_skipped (pre nm line ext : Str)
    (h : containsSub (trimSpace line) (expectedDirective pre nm ++ ext) = true) :
    patchLine pre nm line = (line, false) ∧
    applyAnnotations [line] [(0, nm)] pre = ([line], 0) := by
  have hc : containsSub (trimSpace line) (expectedDirective pre nm) = true :=
    containsSub_infix_iff.mpr
      ((List.prefix_append _ _).isInfix.trans (containsSub_infix_iff.mp h))
  have hp := patchLine_contains hc
  refine ⟨hp, ?_⟩
  show applyAnnotationsAux [(0, nm)] pre 0 [line] = ([line], 0)
  simp [applyAnnotationsAux, lookupAnn, hp]

/-- Witness for C9: the line bearing `// @name p.v1.FooRes2` while the
expected directive is `@name p.v1.FooRes` is skipped unchanged with
zero changes counted. -/
theorem directive_extension_skipped_witness :
    containsSub (trimSpace ("type Foo struct\x7b\x7d // @name p.v1.FooRes2".toList))
        (expectedDirective pv1 ("FooRes".toList) ++ ("2".toList)) = true ∧
    patchLine pv1 ("FooRes".toList) ("type Foo struct\x7b\x7d // @name p.v1.FooRes2".toList)
      = (("type Foo struct\x7b\x7d // @name p.v1.FooRes2".toList), false) ∧
    applyAnnotations [("type Foo struct\x7b\x7d // @name p.v1.FooRes2".toList)]
        [(0, "FooRes".toList)] pv1
      = ([("type Foo struct\x7b\x7d // @name p.v1.FooRes2".toList)], 0) :=
  ⟨by decide,
   (directive_extension_skipped pv1 ("FooRes".toList)
     ("type Foo struct\x7b\x7d // @name p.v1.FooRes2".toList) ("2".toList) (by decide)).1,
   (directive_extension_skipped pv1 ("FooRes".toList)
     ("type Foo struct\x7b\x7d // @name p.v1.FooRes2".toList) ("2".toList) (by decide)).2⟩

/-- Claim C2 (code bug): on a planned line with two leading tabs and a
stale directive, the replacement branch of `applyAnnotations` slices
the untrimmed line with the match index computed on the trimmed line
(`lines[i][:loc[0]]` with `loc` from `FindStringIndex(lineStr)`,
source lines 389-391).  The marker sits at trimmed index 11 — untrimmed
byte 13 — so the cut at byte 11 deletes the last two characters of the
declaration text: `string` becomes `strin`, instead of the replacement
starting at the matched marker as specified. -/
theorem applyAnnotations_trimmed_index_slice :
    findNameRegex (trimSpace ("\t\tFoo string // @name old.v1.X".toList)) = some 11 ∧
    applyAnnotations [("\t\tFoo string // @name old.v1.X".toList)] [(0, "FooRes".toList)] pv1
      = ([("\t\tFoo strin // @name p.v1.FooRes".toList)], 1) :=
  ⟨by decide, by decide⟩

lemma insertAnn_key_mem {m : List (Nat × Str)} {k : Nat} {v : Str} {p : Nat × Str}
    (hp : p ∈ insertAnn m k v) : p ∈ m ∨ p.1 = k := by
  unfold insertAnn at hp
  split at hp
  · rcases List.mem_map.mp hp with ⟨q, hq, he⟩
    by_cases hqk : (q.1 == k) = true
    · right
      rw [if_pos hqk] at he
      rw [← he]
    · left
      rw [if_neg hqk] at he
      rwa [← he]
  · rcases List.mem_append.mp hp with h | h
    · left
      exact h
    · right
      simp at h
      rw [h]

lemma itemFold_keys {itemName : Str} (K : Nat → Prop) :
    ∀ (l : List TypeSpec) (st : AnnState),
      (∀ its ∈ l, K (its.endLine - 1)) →
      (∀ p ∈ st.annotations, K p.1) →
      ∀ p ∈ (l.foldl (fun s its =>
          AnnState.mk (insertAnn s.annotations (its.endLine - 1) itemName)
            (itemName :: s.annotatedTypes)) st).annotations, K p.1 := by
  intro l
  induction l with
  | nil => intro st _ hst p hp; exact hst p hp
  | cons a l' ih =>
    intro st hl hst p hp
    rw [List.foldl_cons] at hp
    refine ih _ (fun its hits => hl its (List.mem_cons_of_mem _ hits)) ?_ p hp
    intro r hr
    rcases insertAnn_key_mem hr with h | h
    · exact hst r h
    · rw [h]
      exact hl a (List.mem_cons_self _ _)

lemma addAnnotationsStep_plan_keys {specs : List TypeSpec} {variant : Str}
    {ignored srit : Str → Bool} {st : AnnState} {ts : TypeSpec}
    (hts : ts ∈ specs)
    (hst : ∀ q ∈ st.annotations, ∃ u ∈ specs, ignored u.name = false ∧ q.1 = u.endLine - 1) :
    ∀ q ∈ (addAnnotationsStep specs variant ignored srit st ts).annotations,
      ∃ u ∈ specs, ignored u.name = false ∧ q.1 = u.endLine - 1 := by
  intro q hq
  by_cases hskip : (!isExported ts.name || ignored ts.name) = true
  · have hstep : addAnnotationsStep specs variant ignored srit st ts = st := by
      unfold addAnnotationsStep
      rw [if_pos hskip]
    rw [hstep] at hq
    exact hst q hq
  · have hign : ignored ts.name = false := by
      have hb : (!isExported ts.name || ignored ts.name) = false := by
        cases hval : (!isExported ts.name || ignored ts.name) with
        | false => rfl
        | true => exact absurd hval hskip
      exact (Bool.or_eq_false_iff.mp hb).2
    have hfilter : ∀ its ∈ specs.filter
        (fun its => decide (its.name = (extractTypeInfo ts).InnerType) && !ignored its.name),
        (fun i => ∃ u ∈ specs, ignored u.name = false ∧ i = u.endLine - 1) (its.endLine - 1) := by
      intro its hits
      rcases List.mem_filter.mp hits with ⟨hmem, hpred⟩
      have hnig : ignored its.name = false := by
        simp only [Bool.and_eq_true, Bool.not_eq_true'] at hpred
        exact hpred.2
      exact ⟨its, hmem, hnig, rfl⟩
    have hins : ∀ (r : Nat × Str), r ∈ insertAnn st.annotations (ts.endLine - 1)
          (generateAnnotationNameWithContext (extractTypeInfo ts) variant srit).1 →
        ∃ u ∈ specs, ignored u.name = false ∧ r.1 = u.endLine - 1 := by
      intro r hr
      rcases insertAnn_key_mem hr with h | h
      · exact hst r h
      · exact ⟨ts, hts, hign, h⟩
    simp only [addAnnotationsStep, if_neg hskip] at hq
    split_ifs at hq
    all_goals
      first
      | exact hst q hq
      | exact hins q hq
      | exact itemFold_keys
          (fun i => ∃ u ∈ specs, ignored u.name = false ∧ i = u.endLine - 1)
          _ _ hfilter hins q hq
      | exact itemFold_keys
          (fun i => ∃ u ∈ specs, ignored u.name = false ∧ i = u.endLine - 1)
          _ _ hfilter hst q hq

lemma addAnnotations_plan_keys {specs : List TypeSpec} {variant : Str}
    {ignored srit : Str → Bool} :
    ∀ q ∈ (addAnnotations specs variant ignored srit).annotations,
      ∃ u ∈ specs, ignored u.name = false ∧ q.1 = u.endLine - 1 := by
  unfold addAnnotations
  have haux : ∀ (l : List TypeSpec), (∀ x ∈ l, x ∈ specs) → ∀ (st : AnnState),
      (∀ q ∈ st.annotations, ∃ u ∈ specs, ignored u.name = false ∧ q.1 = u.endLine - 1) →
      ∀ q ∈ (l.foldl (addAnnotationsStep specs variant ignored srit) st).annotations,
        ∃ u ∈ specs, ignored u.name = false ∧ q.1 = u.endLine - 1 := by
    intro l
    induction l with
    | nil => intro _ st hst q hq; exact hst q hq
    | cons a l' ih =>
      intro hsub st hst q hq
      rw [List.foldl_cons] at hq
      exact ih (fun x hx => hsub x (List.mem_cons_of_mem _ hx)) _
        (addAnnotationsStep_plan_keys (hsub a (List.mem_cons_self _ _)) hst) q hq
  exact haux specs (fun x hx => hx) {} (fun q hq => nomatch hq)

/-- Claim C4 (amended): every entry of a file's annotation plan lies
at the end line of some declaration of the file whose name is not
ignored, so no annotation is ever planned or written for an ignored
declaration (its line receives an annotation only when a non-ignored
declaration ends on the same line).  The original claim's second half
fails on the code: an ignored declaration's type name IS added to the
inner-type set when a non-ignored `SearchResponse` wrapper references
it as inner type, because `findSearchResponseInnerTypes` checks only
the wrapper's ignore status; the membership is inert for the output
since the annotation pass skips ignored declarations. -/
theorem plan_lines_from_non_ignored (lines : List Str) (comments : List CommentItem)
    (specs : List TypeSpec) (variant : Str) (q : Nat × Str)
    (hq : q ∈ planOf lines comments specs variant) :
    ∃ u ∈ specs, findIgnoredTypes lines comments specs u.name = false ∧ q.1 = u.endLine - 1 :=
  addAnnotations_plan_keys q hq

/-- Witness for C4: in the concrete ignore-example file the plan has
exactly the wrapper's entry, and it lies at the non-ignored wrapper's
end line. -/
theorem plan_lines_from_non_ignored_witness :
    ((3 : Nat), "FooListRes".toList) ∈ planOf wLines wComments wSpecs respStr ∧
    (∃ u ∈ wSpecs, findIgnoredTypes wLines wComments wSpecs u.name = false ∧
      ((3 : Nat), "FooListRes".toList).1 = u.endLine - 1) :=
  ⟨by decide, plan_lines_from_non_ignored wLines wComments wSpecs respStr _ (by decide)⟩

/-- Counterexample to C4 as stated: `Widget` is ignored via its doc
comment, yet its name is in the inner-type set because the
non-ignored wrapper `FooList = SearchResponse[Widget]` contributes it
— the pass never consults the inner type's own ignore status. -/
theorem ignored_inner_in_set_cex :
    findIgnoredTypes wLines wComments wSpecs ("Widget".toList) = true ∧
    findSearchResponseInnerTypes wSpecs (findIgnoredTypes wLines wComments wSpecs)
      ("Widget".toList) = true :=
  ⟨by decide, by decide⟩

lemma any_perm {α : Type} {l₁ l₂ : List α} (h : l₁.Perm l₂) (f : α → Bool) :
    l₁.any f = l₂.any f := by
  cases hb : l₂.any f with
  | true =>
    rcases List.any_eq_true.mp hb with ⟨x, hx, hfx⟩
    exact List.any_eq_true.mpr ⟨x, h.mem_iff.mpr hx, hfx⟩
  | false =>
    cases hb1 : l₁.any f with
    | false => rfl
    | true =>
      rcases List.any_eq_true.mp hb1 with ⟨x, hx, hfx⟩
      have hcontra : l₂.any f = true := List.any_eq_true.mpr ⟨x, h.mem_iff.mp hx, hfx⟩
      rw [hb] at hcontra
      cases hcontra

lemma findIgnoredTypes_perm (lines : List Str) (comments : List CommentItem)
    {specs specs' : List TypeSpec} (h : specs.Perm specs') :
    findIgnoredTypes lines comments specs = findIgnoredTypes lines comments specs' := by
  funext n
  exact any_perm h _

/-- Claim C7: the inner-type set computed before name generation is
exactly the set of inner type argument names of the non-ignored
exported declarations whose generic base is `SearchResponse` and
whose inner type name is non-empty, and it is invariant under any
permutation of the file's declarations — both the ignore pass and the
inner-type pass are existential scans of the declaration list. -/
theorem innerTypes_perm_invariant (lines : List Str) (comments : List CommentItem)
    (specs specs' : List TypeSpec) (n : Str) (hperm : specs.Perm specs') :
    findSearchResponseInnerTypes specs (findIgnoredTypes lines comments specs) n
      = findSearchResponseInnerTypes specs' (findIgnoredTypes lines comments specs') n ∧
    (findSearchResponseInnerTypes specs (findIgnoredTypes lines comments specs) n = true ↔
      ∃ ts ∈ specs, isExported ts.name = true ∧
        findIgnoredTypes lines comments specs ts.name = false ∧
        ((extractTypeInfo ts).IsGeneric = true ∨ (extractTypeInfo ts).IsAlias = true) ∧
        (extractTypeInfo ts).GenericBase = searchResponseStr ∧
        (extractTypeInfo ts).InnerType = n ∧ n ≠ []) := by
  constructor
  · rw [← findIgnoredTypes_perm lines comments hperm]
    exact any_perm hperm _
  · unfold findSearchResponseInnerTypes
    rw [List.any_eq_true]
    constructor
    · rintro ⟨ts, hts, hp⟩
      simp only [Bool.and_eq_true, Bool.not_eq_true', Bool.or_eq_true, decide_eq_true_eq] at hp
      obtain ⟨⟨⟨⟨⟨h1, h2⟩, h3⟩, h4⟩, h5⟩, h6⟩ := hp
      have hn : n ≠ [] := by
        rw [← h6]
        intro hc
        rw [hc] at h5
        simp at h5
      exact ⟨ts, hts, h1, h2, h3, h4, h6, hn⟩
    · rintro ⟨ts, hts, h1, h2, h3, h4, h6, hn⟩
      refine ⟨ts, hts, ?_⟩
      simp only [Bool.and_eq_true, Bool.not_eq_true', Bool.or_eq_true, decide_eq_true_eq]
      refine ⟨⟨⟨⟨⟨h1, h2⟩, h3⟩, h4⟩, ?_⟩, h6⟩
      rw [h6]
      cases hc : n with
      | nil => exact absurd hc hn
      | cons c r => rfl

/-- Witness for C7: swapping the two declarations of the
ignore-example file leaves the inner-type set's verdict on `Widget`
unchanged. -/
theorem innerTypes_perm_invariant_witness :
    wSpecs.Perm [wWrap, wWidget] ∧
    findSearchResponseInnerTypes wSpecs (findIgnoredTypes wLines wComments wSpecs)
        ("Widget".toList)
      = findSearchResponseInnerTypes [wWrap, wWidget]
          (findIgnoredTypes wLines wComments [wWrap, wWidget]) ("Widget".toList) :=
  ⟨List.Perm.swap _ _ _,
   (innerTypes_perm_invariant wLines wComments wSpecs [wWrap, wWidget] ("Widget".toList)
     (List.Perm.swap _ _ _)).1⟩

lemma find?_map_overwrite {m : List (Nat × Str)} {k : Nat} {v : Str}
    (hany : m.any (fun p => p.1 == k) = true) :
    (m.map (fun p => if p.1 == k then (k, v) else p)).find? (fun p => p.1 == k)
      = some (k, v) := by
  induction m with
  | nil => simp at hany
  | cons q m' ih =>
    rw [List.map_cons]
    by_cases hqk : (q.1 == k) = true
    · rw [if_pos hqk, List.find?_cons]
      simp
    · have hq : (q.1 == k) = false := by
        cases hc : (q.1 == k) with
        | true => exact absurd hc hqk
        | false => rfl
      have hany' : m'.any (fun p => p.1 == k) = true := by
        rw [List.any_cons, hq] at hany
        simpa using hany
      rw [if_neg hqk, List.find?_cons, hq]
      exact ih hany'

lemma find?_append_of_none {α : Type} {p : α → Bool} {l₁ l₂ : List α}
    (h : l₁.find? p = none) : (l₁ ++ l₂).find? p = l₂.find? p := by
  rw [List.find?_append, h]
  rfl

lemma lookupAnn_insertAnn_self (m : List (Nat × Str)) (k : Nat) (v : Str) :
    lookupAnn (insertAnn m k v) k = some v := by
  unfold insertAnn lookupAnn
  split
  · rw [find?_map_overwrite (by assumption)]
    rfl
  · have hnone : m.find? (fun p => p.1 == k) = none := by
      rw [List.find?_eq_none]
      intro x hx hpx
      exact (by assumption : ¬m.any (fun p => p.1 == k) = true)
        (List.any_eq_true.mpr ⟨x, hx, hpx⟩)
    rw [find?_append_of_none hnone, List.find?_cons]
    simp

lemma extractTypeInfo_base {ts : TypeSpec} (h : (extractTypeInfo ts).GenericBase ≠ []) :
    (extractTypeInfo ts).Name = ts.name ∧
    ((extractTypeInfo ts).IsGeneric || (extractTypeInfo ts).IsAlias) = true := by
  cases hty : ts.type with
  | indexExpr x idx =>
    cases x with
    | identE xname =>
      cases idx with
      | identE sub =>
        by_cases hne : ts.name ≠ xname
        · constructor <;> simp [extractTypeInfo, handleIndexExpr, hty, hne]
        · constructor <;> simp [extractTypeInfo, handleIndexExpr, hty, hne]
      | otherE =>
        by_cases hne : ts.name ≠ xname
        · constructor <;> simp [extractTypeInfo, handleIndexExpr, hty, hne]
        · constructor <;> simp [extractTypeInfo, handleIndexExpr, hty, hne]
    | otherE =>
      exfalso
      apply h
      simp [extractTypeInfo, handleIndexExpr, hty]
  | identT m =>
    exfalso
    apply h
    by_cases hb : basicTypes m = true <;>
      simp [extractTypeInfo, handleIdentType, hty, hb]
  | structType =>
    exfalso
    apply h
    simp [extractTypeInfo, hty]
  | otherT =>
    exfalso
    apply h
    simp [extractTypeInfo, hty]

lemma generate_SR {info : TypeInfo} {variant : Str} {srit : Str → Bool}
    (hn : info.Name ≠ []) (hor : (info.IsGeneric || info.IsAlias) = true)
    (hb : info.GenericBase = searchResponseStr) (hi : info.InnerType ≠ []) :
    generateAnnotationNameWithContext info variant srit
      = (info.Name ++ resSuffix,
         stripRR info.InnerType ++ (if variant = respStr then itemResStr else itemReqStr)) := by
  have h1 : info.Name.isEmpty = false := by
    cases hnn : info.Name with
    | nil => exact absurd hnn hn
    | cons a l => rfl
  have h2 : info.InnerType.isEmpty = false := by
    cases hii : info.InnerType with
    | nil => exact absurd hii hi
    | cons a l => rfl
  simp [generateAnnotationNameWithContext, h1, h2, hor, hb]

/-- Claim C3: for a non-ignored exported declaration whose generic
base is `SearchResponse` with non-empty inner type T, the generator
returns main name = declared name + `Res` regardless of the variant,
and item name = T with a trailing `Response`/`Request` stripped plus
`ItemRes` when the variant is `response` and `ItemReq` otherwise; the
annotation step plans that item name at the end line of T's own
declaration exactly when a non-ignored declaration named T exists in
the file — when none exists the step plans only the wrapper's main
name. -/
theorem searchResponse_wrapper_item_naming (specs : List TypeSpec) (variant : Str)
    (ignored srit : Str → Bool) (st : AnnState) (ts : TypeSpec)
    (hexp : isExported ts.name = true)
    (hign : ignored ts.name = false)
    (hB : (extractTypeInfo ts).GenericBase = searchResponseStr)
    (hT : (extractTypeInfo ts).InnerType ≠ [])
    (hm1 : st.annotatedTypes.any (fun x => x == ts.name ++ resSuffix) = false)
    (hm2 : st.annotatedTypes.any (fun x => x == itemNameOf ts variant) = false)
    (hm3 : itemNameOf ts variant ≠ ts.name ++ resSuffix) :
    generateAnnotationNameWithContext (extractTypeInfo ts) variant srit
      = (ts.name ++ resSuffix, itemNameOf ts variant) ∧
    (specs.filter (fun its => decide (its.name = (extractTypeInfo ts).InnerType)
        && !ignored its.name) = [] →
      addAnnotationsStep specs variant ignored srit st ts
        = AnnState.mk (insertAnn st.annotations (ts.endLine - 1) (ts.name ++ resSuffix))
            ((ts.name ++ resSuffix) :: st.annotatedTypes)) ∧
    (∀ its, specs.filter (fun its => decide (its.name = (extractTypeInfo ts).InnerType)
        && !ignored its.name) = [its] →
      lookupAnn (addAnnotationsStep specs variant ignored srit st ts).annotations
          (its.endLine - 1)
        = some (itemNameOf ts variant)) := by
  have hbne : (extractTypeInfo ts).GenericBase ≠ [] := by
    rw [hB]
    decide
  obtain ⟨hNa, hor⟩ := extractTypeInfo_base hbne
  have hnne : ts.name ≠ [] := by
    intro hc
    rw [hc] at hexp
    simp [isExported] at hexp
  have hgen : generateAnnotationNameWithContext (extractTypeInfo ts) variant srit
      = (ts.name ++ resSuffix, itemNameOf ts variant) := by
    have hg : generateAnnotationNameWithContext (extractTypeInfo ts) variant srit
        = ((extractTypeInfo ts).Name ++ resSuffix,
           stripRR (extractTypeInfo ts).InnerType ++
             (if variant = respStr then itemResStr else itemReqStr)) :=
      generate_SR (by rw [hNa]; exact hnne) hor hB hT
    rw [hNa] at hg
    exact hg
  have c1 : (!isExported ts.name || ignored ts.name) = false := by
    rw [hexp, hign]
    rfl
  have c2 : (extractTypeInfo ts).Name.isEmpty = false := by
    rw [hNa]
    cases hnn : ts.name with
    | nil => exact absurd hnn hnne
    | cons a l => rfl
  have c3a : (ts.name ++ resSuffix).isEmpty = false := by
    cases ts.name <;> rfl
  have c4a : (itemNameOf ts variant).isEmpty = false := by
    unfold itemNameOf
    by_cases hv : variant = respStr
    · rw [if_pos hv]
      cases stripRR (extractTypeInfo ts).InnerType <;> rfl
    · rw [if_neg hv]
      cases stripRR (extractTypeInfo ts).InnerType <;> rfl
  have c4b : ((ts.name ++ resSuffix) == itemNameOf ts variant) = false := by
    cases hc : ((ts.name ++ resSuffix) == itemNameOf ts variant) with
    | false => rfl
    | true => exact absurd (beq_iff_eq.mp hc).symm hm3
  have c5 : (extractTypeInfo ts).InnerType.isEmpty = false := by
    cases hii : (extractTypeInfo ts).InnerType with
    | nil => exact absurd hii hT
    | cons a l => rfl
  have hstep : addAnnotationsStep specs variant ignored srit st ts
      = (specs.filter (fun its => decide (its.name = (extractTypeInfo ts).InnerType)
            && !ignored its.name)).foldl
          (fun s its => AnnState.mk (insertAnn s.annotations (its.endLine - 1)
              (itemNameOf ts variant)) ((itemNameOf ts variant) :: s.annotatedTypes))
          (AnnState.mk (insertAnn st.annotations (ts.endLine - 1) (ts.name ++ resSuffix))
            ((ts.name ++ resSuffix) :: st.annotatedTypes)) := by
    simp [addAnnotationsStep, hgen, c1, c2, c3a, c4a, c4b, c5, hm1, hm2, List.any_cons]
  refine ⟨hgen, ?_, ?_⟩
  · intro hf
    rw [hstep, hf]
    rfl
  · intro its hf
    rw [hstep, hf, List.foldl_cons, List.foldl_nil]
    exact lookupAnn_insertAnn_self _ _ _

/-- Witness for C3: on the ignore-example file, the wrapper `FooList`
generates `FooListRes` and `WidgetItemRes` in the response variant,
and since no non-ignored declaration named `Widget` exists (`Widget`
is ignored), the step plans only the wrapper's main name. -/
theorem searchResponse_wrapper_item_naming_witness :
    generateAnnotationNameWithContext (extractTypeInfo wWrap) respStr
        (findSearchResponseInnerTypes wSpecs (findIgnoredTypes wLines wComments wSpecs))
      = (wWrap.name ++ resSuffix, itemNameOf wWrap respStr) ∧
    addAnnotationsStep wSpecs respStr (findIgnoredTypes wLines wComments wSpecs)
        (findSearchResponseInnerTypes wSpecs (findIgnoredTypes wLines wComments wSpecs))
        {} wWrap
      = AnnState.mk (insertAnn ({} : AnnState).annotations (wWrap.endLine - 1)
          (wWrap.name ++ resSuffix)) ((wWrap.name ++ resSuffix)
            :: ({} : AnnState).annotatedTypes) :=
  ⟨(searchResponse_wrapper_item_naming wSpecs respStr
      (findIgnoredTypes wLines wComments wSpecs)
      (findSearchResponseInnerTypes wSpecs (findIgnoredTypes wLines wComments wSpecs))
      {} wWrap (by decide) (by decide) (by decide) (by decide) (by decide) (by decide)
      (by decide)).1,
   (searchResponse_wrapper_item_naming wSpecs respStr
      (findIgnoredTypes wLines wComments wSpecs)
      (findSearchResponseInnerTypes wSpecs (findIgnoredTypes wLines wComments wSpecs))
      {} wWrap (by decide) (by decide) (by decide) (by decide) (by decide) (by decide)
      (by decide)).2.1 (by decide)⟩

lemma trimSuffixStr_append (t a : Str) : trimSuffixStr (t ++ a) a = t := by
  unfold trimSuffixStr
  rw [if_pos (List.isSuffixOf_iff_suffix.mpr (List.suffix_append t a))]
  rw [List.length_append, Nat.add_sub_cancel, List.take_left]

/-- Claim C6 (amended): the generator strips a trailing `Response` and
then a trailing `Request` unconditionally in that order, and the two
strips both match exactly when the name ends in `RequestResponse`; for
every name not ending in `RequestResponse` at most one strip matches,
so at most one suffix is removed.  The original claim's universal
at-most-one statement is refuted by any name ending in
`RequestResponse` (see the counterexample). -/
theorem strip_both_iff (s : Str) :
    (responseSuffix.isSuffixOf s = true ∧
      requestSuffix.isSuffixOf (trimSuffixStr s responseSuffix) = true) ↔
    ("RequestResponse".toList).isSuffixOf s = true := by
  have hrr : ("RequestResponse".toList) = requestSuffix ++ responseSuffix := by decide
  rw [List.isSuffixOf_iff_suffix, List.isSuffixOf_iff_suffix, List.isSuffixOf_iff_suffix]
  constructor
  · rintro ⟨⟨t, ht⟩, h2⟩
    rw [← ht, trimSuffixStr_append] at h2
    rcases h2 with ⟨u, hu⟩
    refine ⟨u, ?_⟩
    rw [← ht, hrr, ← List.append_assoc, hu]
  · rintro ⟨u, hu⟩
    rw [hrr] at hu
    have hs : s = (u ++ requestSuffix) ++ responseSuffix := by
      rw [List.append_assoc, hu]
    constructor
    · rw [hs]
      exact ⟨u ++ requestSuffix, rfl⟩
    · rw [hs, trimSuffixStr_append]
      exact ⟨u, rfl⟩

/-- Counterexample to C6 as stated: for the name
`FooRequestResponse` both strips match — `Response` is a suffix of the
name and `Request` is a suffix of the once-stripped name — and both
suffixes are removed, leaving `Foo`. -/
theorem strip_double_cex :
    responseSuffix.isSuffixOf ("FooRequestResponse".toList) = true ∧
    requestSuffix.isSuffixOf
        (trimSuffixStr ("FooRequestResponse".toList) responseSuffix) = true ∧
    stripRR ("FooRequestResponse".toList) = "Foo".toList :=
  ⟨by decide, by decide, by decide⟩

lemma processEntry_eq (r : ProcessingResult) (e : WalkEntry) :
    processEntry r e = { r with
      FilesProcessed := r.FilesProcessed + (if eligibleEntry e then 1 else 0),
      Errors := r.Errors ++ entryErrors e } := by
  by_cases hskip : (e.isDir || !goSuffix.isSuffixOf (entryName e)) = true
  · have he : eligibleEntry e = false := by
      unfold eligibleEntry
      cases hd : e.isDir with
      | true => rfl
      | false =>
        have h2 : (!goSuffix.isSuffixOf (entryName e)) = true := by
          rw [hd] at hskip
          simpa using hskip
        rw [Bool.not_eq_true'] at h2
        rw [h2]
        simp
    unfold processEntry entryErrors
    rw [if_pos hskip, he]
    simp
  · have hskipf : (e.isDir || !goSuffix.isSuffixOf (entryName e)) = false := by
      cases hval : (e.isDir || !goSuffix.isSuffixOf (entryName e)) with
      | false => rfl
      | true => exact absurd hval hskip
    have hd : e.isDir = false := (Bool.or_eq_false_iff.mp hskipf).1
    have hg : goSuffix.isSuffixOf (entryName e) = true := by
      have h2 := (Bool.or_eq_false_iff.mp hskipf).2
      simpa using h2
    by_cases hl : e.relParts.length < 2
    · have he : eligibleEntry e = false := by
        unfold eligibleEntry
        have hle : decide (2 ≤ e.relParts.length) = false := by
          simp only [decide_eq_false_iff_not]
          omega
        rw [hle]
        simp
      unfold processEntry entryErrors
      rw [if_neg hskip, if_pos hl, he]
      simp
    · have he : eligibleEntry e = true := by
        unfold eligibleEntry
        have hle : decide (2 ≤ e.relParts.length) = true := by
          simp only [decide_eq_true_eq]
          omega
        rw [hd, hg, hle]
        rfl
      unfold processEntry entryErrors
      rw [if_neg hskip, if_neg hl, he]
      cases hp : e.procErr with
      | some msg => simp
      | none => simp

lemma foldl_processEntry (es : List WalkEntry) : ∀ r : ProcessingResult,
    es.foldl processEntry r = { r with
      FilesProcessed := r.FilesProcessed + es.countP eligibleEntry,
      Errors := r.Errors ++ (es.map entryErrors).flatten } := by
  induction es with
  | nil => intro r; simp
  | cons e es' ih =>
    intro r
    rw [List.foldl_cons, processEntry_eq, ih]
    simp [List.countP_cons]
    omega

lemma processDir_eq (r : ProcessingResult) (d : DirWalk) :
    processDir r d = { r with
      FilesProcessed := r.FilesProcessed + d.entries.countP eligibleEntry,
      Errors := r.Errors ++ dirErrors d } := by
  unfold processDir dirErrors
  rw [foldl_processEntry]
  cases hw : d.walkErr with
  | some msg => simp [List.append_assoc]
  | none => simp

lemma foldl_processDir (ds : List DirWalk) : ∀ r : ProcessingResult,
    ds.foldl processDir r = { r with
      FilesProcessed := r.FilesProcessed
        + (ds.map (fun d => d.entries.countP eligibleEntry)).sum,
      Errors := r.Errors ++ (ds.map dirErrors).flatten } := by
  induction ds with
  | nil => intro r; simp
  | cons d ds' ih =>
    intro r
    rw [List.foldl_cons, processDir_eq, ih]
    simp
    omega

/-- Claim C8: error accumulation without abort — the aggregated error
list is exactly the concatenation, over all configured directories in
order, of every eligible file's processing failure (tagged with that
file's path) followed by the directory's own walk error; the files
processed count is the full count of eligible files, independent of
any failures; and the run verdict is failure exactly when at least one
error was recorded.  No per-file error short-circuits later files or
directories, since every later entry's contribution still appears. -/
theorem run_error_accumulation (dirs : List DirWalk) :
    (processSourceDirectories dirs).Errors = (dirs.map dirErrors).flatten ∧
    (processSourceDirectories dirs).FilesProcessed
      = (dirs.map (fun d => d.entries.countP eligibleEntry)).sum ∧
    (runFails dirs = true ↔ (processSourceDirectories dirs).Errors ≠ []) := by
  have h := foldl_processDir dirs ({} : ProcessingResult)
  refine ⟨?_, ?_, ?_⟩
  · show (dirs.foldl processDir {}).Errors = (dirs.map dirErrors).flatten
    rw [h]
    simp
  · show (dirs.foldl processDir {}).FilesProcessed
      = (dirs.map (fun d => d.entries.countP eligibleEntry)).sum
    rw [h]
    simp
  · unfold runFails hasErrors
    constructor
    · intro hf
      intro hnil
      unfold processSourceDirectories at hf hnil
      rw [hnil] at hf
      simp at hf
    · intro hne
      unfold processSourceDirectories at hne ⊢
      cases hval : (dirs.foldl processDir {}).Errors.isEmpty with
      | false => rfl
      | true => exact absurd (List.isEmpty_iff.mp hval) hne

/-- Claim C10: whenever the path relative to the base directory splits
into at least two segments, the file is not skipped and the version
identifier is exactly the second segment — so a `.go` file directly
inside a variant subdirectory (no version folder) is processed with
its own file name as the version, yielding the prefix
`<project>.<file name>.`. -/
theorem version_second_segment (proj rel : Str)
    (h : 2 ≤ (splitChar sepChar rel).length) :
    versionOfRel rel = some ((splitChar sepChar rel).getD 1 []) ∧
    prefixOfRel proj rel
      = some (proj ++ dotStr ++ (splitChar sepChar rel).getD 1 [] ++ dotStr) := by
  have hlt : ¬ (splitChar sepChar rel).length < 2 := Nat.not_lt.mpr h
  constructor
  · simp [versionOfRel, hlt]
  · simp [prefixOfRel, versionOfRel, hlt]

/-- Witness for C10: `response/foo.go` sits directly inside the
variant directory; it is processed with version `foo.go` and prefix
`proj.foo.go.`. -/
theorem version_second_segment_witness :
    versionOfRel ("response/foo.go".toList) = some ("foo.go".toList) ∧
    prefixOfRel ("proj".toList) ("response/foo.go".toList)
      = some ("proj.foo.go.".toList) := by
  have h := version_second_segment ("proj".toList) ("response/foo.go".toList) (by decide)
  refine ⟨?_, ?_⟩
  · rw [h.1]
    decide
  · rw [h.2]
    decide
